import Mathlib

/-!
Verification of the Ollama code-assistant utilities (`ocode.py`,
`large_context_test.py`, `ollama-lite.py`).

Text is modelled as `List Char` (abbreviated `Str`), mirroring Python
strings as sequences of characters.  Machine integers do not occur:
Python integers are arbitrary precision, so `Nat` is an exact model for
the non-negative quantities manipulated here.
-/

set_option maxHeartbeats 1000000

abbrev Str := List Char

/-- `ocode.py` line 21: the default model name. -/
def DEFAULT_MODEL : Str := "qwen2.5-coder-128k:latest".data

/-- `ocode.py` line 23: `MAX_CONTEXT_SIZE = 128000`. -/
def MAX_CONTEXT_SIZE : Nat := 128000

/-- `ocode.py` line 25: `TOKEN_BUFFER = 1000`. -/
def TOKEN_BUFFER : Nat := 1000

/-- Python `int.bit_length()` on a non-negative integer: `0` for `0`,
otherwise one more than the floor base-2 logarithm. -/
def bit_length (n : Nat) : Nat := if n = 0 then 0 else Nat.log 2 n + 1

/-- `ocode.py` `main`, lines 402 and 405:
`dynamic_ctx_size = min(MAX_CONTEXT_SIZE, token_count + TOKEN_BUFFER)`
followed by
`dynamic_ctx_size = max(4096, 2**int(dynamic_ctx_size - 1).bit_length())`. -/
def dynamic_ctx_size (token_count : Nat) : Nat :=
  max 4096 (2 ^ bit_length (min MAX_CONTEXT_SIZE (token_count + TOKEN_BUFFER) - 1))

/-- Written from the spec's words (§4.3) for the refinement claim C2:
"the minimum of (estimate + buffer) and the maximum, then rounded up to
the next power of two with a floor value".  The least power of two that
is `≥ v` is `2 ^ Nat.clog 2 v`. -/
def context_sizer_spec (estimate : Nat) : Nat :=
  max 4096 (2 ^ Nat.clog 2 (min (estimate + TOKEN_BUFFER) MAX_CONTEXT_SIZE))

lemma bit_length_le_iff {n k : Nat} : bit_length n ≤ k ↔ n < 2 ^ k := by
  unfold bit_length
  by_cases hn : n = 0
  · simp [hn, Nat.pos_pow_of_pos, Nat.pow_pos]
  · simp only [hn, if_false]
    rw [Nat.succ_le_iff]
    exact (Nat.lt_pow_iff_log_lt (by norm_num) hn).symm

lemma bit_length_mono {m n : Nat} (h : m ≤ n) : bit_length m ≤ bit_length n := by
  exact bit_length_le_iff.2 (lt_of_le_of_lt h (bit_length_le_iff.1 le_rfl))

/-- For `v ≥ 1`, `(v - 1).bit_length` is the ceiling base-2 logarithm of `v`,
so `2 ^ (v-1).bit_length` is the least power of two `≥ v`. -/
lemma bit_length_pred_eq_clog {v : Nat} (hv : 1 ≤ v) :
    bit_length (v - 1) = Nat.clog 2 v := by
  have key : ∀ k, bit_length (v - 1) ≤ k ↔ v ≤ 2 ^ k := by
    intro k
    rw [bit_length_le_iff, Nat.sub_lt_iff_lt_add hv]
    omega
  refine le_antisymm ?_ ?_
  · exact (key _).2 ((Nat.le_pow_iff_clog_le (by norm_num)).2 le_rfl)
  · exact (Nat.le_pow_iff_clog_le (by norm_num)).1 ((key _).1 le_rfl)

lemma log2_127999 : Nat.log 2 127999 = 16 :=
  Nat.log_eq_of_pow_le_of_lt_pow (by norm_num) (by norm_num)

lemma log2_65536 : Nat.log 2 65536 = 16 :=
  Nat.log_eq_of_pow_le_of_lt_pow (by norm_num) (by norm_num)

/-- **C1 (counterexample).** At estimated token count 64537 the context
sizer returns 131072, which exceeds 128000: the claim "never above
128000" is false. -/
theorem c1_ctx_size_above_max_counterexample :
    dynamic_ctx_size 64537 = 131072 ∧ ¬ dynamic_ctx_size 64537 ≤ 128000 := by
  have h1 : min MAX_CONTEXT_SIZE (64537 + TOKEN_BUFFER) - 1 = 65536 := by
    simp [MAX_CONTEXT_SIZE, TOKEN_BUFFER]
  have h2 : bit_length 65536 = 17 := by
    simp [bit_length, log2_65536]
  have h3 : dynamic_ctx_size 64537 = 131072 := by
    rw [dynamic_ctx_size, h1, h2]; decide
  exact ⟨h3, by rw [h3]; norm_num⟩

/-- **C1 (amended).** The context-sizer result is always a power of two,
never below 4096, and never above 131072 (the power of two reached by
rounding the 128000 cap up); the original bound 128000 itself can be
exceeded, as the counterexample shows. -/
theorem c1_ctx_size_pow2_floor_ceiling (token_count : Nat) :
    (∃ k, dynamic_ctx_size token_count = 2 ^ k) ∧
    4096 ≤ dynamic_ctx_size token_count ∧
    dynamic_ctx_size token_count ≤ 131072 := by
  refine ⟨?_, le_max_left _ _, ?_⟩
  · rcases le_total (2 ^ bit_length (min MAX_CONTEXT_SIZE (token_count + TOKEN_BUFFER) - 1)) 4096
      with h | h
    · exact ⟨12, by rw [dynamic_ctx_size, max_eq_left h]; norm_num⟩
    · exact ⟨_, by rw [dynamic_ctx_size, max_eq_right h]⟩
  · have harg : min MAX_CONTEXT_SIZE (token_count + TOKEN_BUFFER) - 1 ≤ 127999 := by
      have := min_le_left MAX_CONTEXT_SIZE (token_count + TOKEN_BUFFER)
      simp only [MAX_CONTEXT_SIZE] at this ⊢
      omega
    have hbl : bit_length (min MAX_CONTEXT_SIZE (token_count + TOKEN_BUFFER) - 1) ≤ 17 := by
      have h17 : bit_length 127999 = 17 := by simp [bit_length, log2_127999]
      calc bit_length (min MAX_CONTEXT_SIZE (token_count + TOKEN_BUFFER) - 1)
          ≤ bit_length 127999 := bit_length_mono harg
        _ = 17 := h17
    have : (2 : Nat) ^ bit_length (min MAX_CONTEXT_SIZE (token_count + TOKEN_BUFFER) - 1)
        ≤ 2 ^ 17 := Nat.pow_le_pow_right (by norm_num) hbl
    rw [dynamic_ctx_size]
    exact max_le (by norm_num) (by omega)

/-- **C2.** The context sizer computes `min (estimate + buffer) max`,
then rounds up to the next power of two with a 4096 floor — i.e. it
coincides with the spec-level description — and at estimated token count
5000 with buffer 1000 it returns 8192. -/
theorem c2_ctx_size_matches_spec_and_example :
    (∀ token_count, dynamic_ctx_size token_count = context_sizer_spec token_count) ∧
    dynamic_ctx_size 5000 = 8192 := by
  have main : ∀ token_count,
      dynamic_ctx_size token_count = context_sizer_spec token_count := by
    intro tc
    have hv : 1 ≤ min MAX_CONTEXT_SIZE (tc + TOKEN_BUFFER) := by
      simp only [MAX_CONTEXT_SIZE, TOKEN_BUFFER]
      omega
    rw [dynamic_ctx_size, context_sizer_spec, bit_length_pred_eq_clog hv,
      min_comm MAX_CONTEXT_SIZE (tc + TOKEN_BUFFER)]
  refine ⟨main, ?_⟩
  have hmin : min (5000 + TOKEN_BUFFER) MAX_CONTEXT_SIZE = 6000 := by
    simp [MAX_CONTEXT_SIZE, TOKEN_BUFFER]
  have hclog : Nat.clog 2 6000 = 13 := by
    have h1 : Nat.clog 2 6000 ≤ 13 :=
      (Nat.le_pow_iff_clog_le (by norm_num)).1 (by norm_num)
    have h2 : ¬ Nat.clog 2 6000 ≤ 12 := by
      intro h
      have : (6000 : Nat) ≤ 2 ^ 12 := (Nat.le_pow_iff_clog_le (by norm_num)).2 h
      norm_num at this
    omega
  rw [main 5000, context_sizer_spec, hmin, hclog]; decide

/-- **C3.** The context sizer is monotonic: a larger estimated token
count never produces a smaller context size. -/
theorem c3_ctx_size_monotone (a b : Nat) (h : a ≤ b) :
    dynamic_ctx_size a ≤ dynamic_ctx_size b := by
  unfold dynamic_ctx_size
  refine max_le_max le_rfl (Nat.pow_le_pow_right (by norm_num) ?_)
  refine bit_length_mono (Nat.sub_le_sub_right ?_ 1)
  exact min_le_min le_rfl (Nat.add_le_add_right h _)

/-- Witness for C3 at a concrete pair of inputs. -/
theorem c3_ctx_size_monotone_witness :
    dynamic_ctx_size 3 ≤ dynamic_ctx_size 5 :=
  c3_ctx_size_monotone 3 5 (by decide)

/-! ## Token estimators (`large_context_test.py` lines 19-40, `ocode.py` lines 51-60) -/

/-- `ord(char) > 0x4E00 and ord(char) < 0x9FFF` (CJK range check). -/
def isCJKChar (c : Char) : Bool := 0x4E00 < c.toNat && c.toNat < 0x9FFF

/-- `not (char.isalnum() or char.isspace())`; character classes are
modelled by Lean's classifiers. -/
def isSpecialChar (c : Char) : Bool := !(c.isAlphanum || c.isWhitespace)

/-- State-passing scan counting maximal non-whitespace runs; the state
records whether the previous character was inside a word. -/
def countWordsAux : Bool → Str → Nat
  | _, [] => 0
  | inWord, c :: rest =>
    if c.isWhitespace then countWordsAux false rest
    else (if inWord then 0 else 1) + countWordsAux true rest

/-- `len(text.split())`: Python `str.split()` with no separator splits on
runs of whitespace and drops empty fields, so the length of the result is
the number of maximal non-whitespace runs. -/
def countWords (t : Str) : Nat := countWordsAux false t

/-- `large_context_test.py` `estimate_qwen_tokens`:
`int(words + cjk_chars + numeric_chars*0.5 + special_chars*0.5)`.
All four counts are non-negative integers, and halves of integers of any
realistic size are exact in floating point, so the truncation equals the
exact value `(2*words + 2*cjk + numeric + special) / 2` in `Nat`. -/
def estimate_qwen_tokens (t : Str) : Nat :=
  let words := countWords t
  let cjk_chars := t.countP isCJKChar
  let numeric_chars := t.countP Char.isDigit
  let special_chars := t.countP isSpecialChar
  (2 * words + 2 * cjk_chars + numeric_chars + special_chars) / 2

/-- `ocode.py` `count_tokens` exception fallback: `len(text) // 4`. -/
def count_tokens_fallback (t : Str) : Nat := t.length / 4

lemma countWordsAux_append_space (ys : Str) :
    ∀ (xs : Str) (b : Bool),
      countWordsAux b (xs ++ ' ' :: ys) = countWordsAux b xs + countWordsAux false ys := by
  intro xs
  induction xs with
  | nil =>
    intro b
    simp [countWordsAux]
  | cons c xs ih =>
    intro b
    by_cases hc : c.isWhitespace
    · simp [countWordsAux, hc, ih]
    · simp [countWordsAux, hc, ih, Nat.add_assoc]

lemma countWords_append_space (t w : Str) :
    countWords (t ++ ' ' :: w) = countWords t + countWords w := by
  simp [countWords, countWordsAux_append_space]

/-- **C4.** Both token estimators return a non-negative integer, and both
are monotonically non-decreasing when the text grows by concatenating a
space and further characters. -/
theorem c4_estimators_nonneg_monotone (t w : Str) :
    0 ≤ estimate_qwen_tokens t ∧
    estimate_qwen_tokens t ≤ estimate_qwen_tokens (t ++ ' ' :: w) ∧
    count_tokens_fallback t ≤ count_tokens_fallback (t ++ ' ' :: w) := by
  refine ⟨Nat.zero_le _, ?_, ?_⟩
  · unfold estimate_qwen_tokens
    refine Nat.div_le_div_right ?_
    rw [countWords_append_space]
    simp only [List.countP_append]
    omega
  · unfold count_tokens_fallback
    refine Nat.div_le_div_right ?_
    simp [List.length_append]

/-! ## Directory aggregation (`ocode.py` lines 73-165)

The filesystem is modelled as a tree of entries.  A file carries its
name, its `stat().st_size`, and the text returned by `get_file_content`;
a directory carries its name and children.  The `.gitignore` patterns
(lines 92-97) are read from the outside world, so they enter the model
as a parameter. -/

inductive Entry where
  | file (name : Str) (size : Nat) (content : Str)
  | dir (name : Str) (children : List Entry)

def entryName : Entry → Str
  | .file name _ _ => name
  | .dir name _ => name

def entryIsFile : Entry → Bool
  | .file _ _ _ => true
  | .dir _ _ => false

/-- Python `s.startswith(pre)`. -/
def strStartsWith : Str → Str → Bool
  | _, [] => true
  | [], _ :: _ => false
  | c :: cs, p :: ps => (c == p) && strStartsWith cs ps

/-- Python `s.endswith(suf)`. -/
def strEndsWith (s suf : Str) : Bool := strStartsWith s.reverse suf.reverse

/-- Python `p in s` (substring containment). -/
def containsSub : Str → Str → Bool
  | [], p => strStartsWith [] p
  | c :: t, p => strStartsWith (c :: t) p || containsSub t p

/-- One `.gitignore` pattern test, `should_ignore` lines 107-113:
trailing-slash prefix match, leading-asterisk suffix match, else
substring match. -/
def matchesPattern (pat relPath : Str) : Bool :=
  (strEndsWith pat ['/'] && strStartsWith relPath pat.dropLast) ||
  (strStartsWith pat ['*'] && strEndsWith relPath (pat.drop 1)) ||
  containsSub relPath pat

/-- Python `pathlib.Path(name).suffix`: `name[i:]` for the last index
`i` of `'.'` when `0 < i < len(name) - 1`, else empty. -/
def path_suffix (name : Str) : Str :=
  match name.reverse.findIdx? (fun c => c == '.') with
  | none => []
  | some j =>
    let i := name.length - 1 - j
    if 0 < i ∧ i < name.length - 1 then name.drop i else []

/-- `should_ignore` line 117: the binary-extension list. -/
def binary_suffixes : List Str :=
  [".jpg".data, ".jpeg".data, ".png".data, ".gif".data,
   ".pdf".data, ".zip".data, ".tar".data, ".gz".data]

/-- `ocode.py` `should_ignore` (lines 100-122): hidden names, loaded
ignore patterns against the root-relative path, and (for files only)
binary extensions and the 1 MB size limit. -/
def should_ignore (patterns : List Str) (relPath : Str) (e : Entry) : Bool :=
  strStartsWith (entryName e) ['.'] ||
  patterns.any (fun pat => matchesPattern pat relPath) ||
  (match e with
   | .file name size _ =>
     binary_suffixes.contains (path_suffix name) || decide (size > 1000000)
   | .dir _ _ => false)

/-- `str(path.relative_to(dir_path))` for a child of the directory whose
own root-relative path is `dirRel` (empty for the traversal root). -/
def childRel (dirRel name : Str) : Str :=
  if dirRel = [] then name else dirRel ++ '/' :: name

/-- The path printed in a directory header: the target path joined with
the directory's root-relative path. -/
def displayPath (rootPath rel : Str) : Str :=
  if rel = [] then rootPath else rootPath ++ '/' :: rel

def dirHeader (rootPath rel : Str) : Str :=
  "===== Directory: ".data ++ displayPath rootPath rel ++ " =====".data

def fileHeader (name : Str) : Str := "===== ".data ++ name ++ " =====".data

def skippedMarker (name : Str) : Str :=
  "[Skipped file: ".data ++ name ++ " - max file limit reached]".data

def warningMarker (n : Nat) : Str :=
  "[Warning: Only processed ".data ++ (toString n).data
    ++ " files. Additional files were skipped.]".data

/-- Lexicographic order on strings by code point (Python `str` order). -/
def strLe : Str → Str → Bool
  | [], _ => true
  | _ :: _, [] => false
  | a :: as, b :: bs => a.toNat < b.toNat || (a == b && strLe as bs)

/-- `sorted(..., key=lambda x: (x.is_file(), x.name))`: tuple order with
`False < True`, so directories come first, each group by name. -/
def entryKeyLe (a b : Entry) : Bool :=
  (!entryIsFile a && entryIsFile b) ||
  (entryIsFile a == entryIsFile b && strLe (entryName a) (entryName b))

def insertEntry (a : Entry) : List Entry → List Entry
  | [] => [a]
  | b :: bs => if entryKeyLe a b then a :: b :: bs else b :: insertEntry a bs

def sortEntries : List Entry → List Entry
  | [] => []
  | e :: es => insertEntry e (sortEntries es)

/-- The mutable state of `get_directory_content`'s BFS loop.  `result`
and `file_count` mirror the source variables; `nextDirs` holds the
`(root-relative path, children)` pairs collected for the next level.
`visited` (the depth at which each directory was processed) and `bodies`
(how many file bodies were appended to `result`) are ghost fields
recording events for the theorems; they influence nothing. -/
structure TravState where
  result : List Str
  file_count : Nat
  nextDirs : List (Str × List Entry)
  visited : List Nat
  bodies : Nat

/-- The inner `for entry in sorted(current_dir.iterdir(), ...)` loop
(lines 137-152): ignored entries are skipped; a file's header and body
are appended while `file_count < max_files`, otherwise a skipped-file
marker; a subdirectory is queued for the next level. -/
def procEntries (patterns : List Str) (max_files : Nat) (dirRel : Str) :
    List Entry → TravState → TravState
  | [], s => s
  | e :: es, s =>
    if should_ignore patterns (childRel dirRel (entryName e)) e then
      procEntries patterns max_files dirRel es s
    else
      match e with
      | .file name _ content =>
        if s.file_count < max_files then
          procEntries patterns max_files dirRel es
            { s with result := s.result ++ [fileHeader name, content],
                     file_count := s.file_count + 1,
                     bodies := s.bodies + 1 }
        else
          procEntries patterns max_files dirRel es
            { s with result := s.result ++ [skippedMarker name] }
      | .dir name children =>
        procEntries patterns max_files dirRel es
          { s with nextDirs := s.nextDirs ++ [(childRel dirRel name, children)] }

/-- The `for current_dir in dirs_to_process` loop (lines 131-154): each
directory of the level contributes its header line then its processed
entries.  `depth` is the ghost depth of this level. -/
def procLevel (patterns : List Str) (max_files : Nat) (rootPath : Str) (depth : Nat) :
    List (Str × List Entry) → TravState → TravState
  | [], s => s
  | (rel, children) :: ds, s =>
    let s1 : TravState :=
      { s with result := s.result ++ [dirHeader rootPath rel],
               visited := s.visited ++ [depth] }
    procLevel patterns max_files rootPath depth ds
      (procEntries patterns max_files rel (sortEntries children) s1)

/-- The `while dirs_to_process and current_depth < max_depth and
file_count < max_files` loop (lines 128-157).  `remaining` is
`max_depth - current_depth`, so `remaining = 0` is exactly the failure
of `current_depth < max_depth`; `depth` is the ghost current depth. -/
def bfsLoop (patterns : List Str) (max_files : Nat) (rootPath : Str) :
    Nat → Nat → List (Str × List Entry) → TravState → TravState
  | 0, _, _, s => s
  | remaining + 1, depth, dirs, s =>
    if dirs.isEmpty || ! decide (s.file_count < max_files) then s
    else
      let s1 := procLevel patterns max_files rootPath depth dirs { s with nextDirs := [] }
      bfsLoop patterns max_files rootPath remaining (depth + 1) s1.nextDirs s1

/-- `ocode.py` `get_directory_content` (lines 73-165) on a directory
target.  `rootName` is `Path(dir_path).name`, the target directory's own
name: the source never consults it (`should_ignore` is applied only to
entries produced by `iterdir`), which is why it is unused here; claim
C10 is about exactly this.  The trailing warning line is appended when
`file_count >= max_files` (line 159). -/
def get_directory_content_run (patterns : List Str) (rootPath rootName : Str)
    (children : List Entry) (max_depth max_files : Nat) : TravState :=
  let s := bfsLoop patterns max_files rootPath max_depth 0 [([], children)]
    ⟨[], 0, [], [], 0⟩
  if s.file_count ≥ max_files then
    { s with result := s.result ++ [warningMarker s.file_count] }
  else s

/-- Python `"\n\n".join(result)`. -/
def joinSep (sep : Str) : List Str → Str
  | [] => []
  | [x] => x
  | x :: y :: rest => x ++ sep ++ joinSep sep (y :: rest)

/-- The string returned by `get_directory_content`. -/
def get_directory_content (patterns : List Str) (rootPath rootName : Str)
    (children : List Entry) (max_depth max_files : Nat) : Str :=
  joinSep "\n\n".data
    (get_directory_content_run patterns rootPath rootName children max_depth max_files).result

/-! ## Invariants of the traversal (claims C5, C10) -/

lemma procEntries_inv (patterns : List Str) (max_files : Nat) (dirRel : Str) :
    ∀ (es : List Entry) (s : TravState),
      s.bodies = s.file_count → s.file_count ≤ max_files →
      (procEntries patterns max_files dirRel es s).bodies
          = (procEntries patterns max_files dirRel es s).file_count ∧
        (procEntries patterns max_files dirRel es s).file_count ≤ max_files := by
  intro es
  induction es with
  | nil => intro s h1 h2; exact ⟨h1, h2⟩
  | cons e es ih =>
    intro s h1 h2
    cases e with
    | file name size content =>
      simp only [procEntries]
      split
      · exact ih s h1 h2
      · split
        · exact ih _ (by simp [h1]) (by simp; omega)
        · exact ih _ (by simp [h1]) (by simpa using h2)
    | dir name children =>
      simp only [procEntries]
      split
      · exact ih s h1 h2
      · exact ih _ (by simp [h1]) (by simpa using h2)

lemma procEntries_visited (patterns : List Str) (max_files : Nat) (dirRel : Str) :
    ∀ (es : List Entry) (s : TravState),
      (procEntries patterns max_files dirRel es s).visited = s.visited := by
  intro es
  induction es with
  | nil => intro s; rfl
  | cons e es ih =>
    intro s
    cases e with
    | file name size content =>
      simp only [procEntries]
      split
      · exact ih s
      · split
        · exact (ih _).trans rfl
        · exact (ih _).trans rfl
    | dir name children =>
      simp only [procEntries]
      split
      · exact ih s
      · exact (ih _).trans rfl

lemma procLevel_inv (patterns : List Str) (max_files : Nat) (rootPath : Str) (depth : Nat) :
    ∀ (ds : List (Str × List Entry)) (s : TravState),
      s.bodies = s.file_count → s.file_count ≤ max_files →
      (procLevel patterns max_files rootPath depth ds s).bodies
          = (procLevel patterns max_files rootPath depth ds s).file_count ∧
        (procLevel patterns max_files rootPath depth ds s).file_count ≤ max_files := by
  intro ds
  induction ds with
  | nil => intro s h1 h2; exact ⟨h1, h2⟩
  | cons d ds ih =>
    intro s h1 h2
    obtain ⟨rel, children⟩ := d
    simp only [procLevel]
    obtain ⟨g1, g2⟩ := procEntries_inv patterns max_files rel (sortEntries children)
      { s with result := s.result ++ [dirHeader rootPath rel], visited := s.visited ++ [depth] }
      (by simpa using h1) (by simpa using h2)
    exact ih _ g1 g2

lemma procLevel_visited (patterns : List Str) (max_files : Nat) (rootPath : Str) (depth : Nat) :
    ∀ (ds : List (Str × List Entry)) (s : TravState),
      ∀ d ∈ (procLevel patterns max_files rootPath depth ds s).visited,
        d ∈ s.visited ∨ d = depth := by
  intro ds
  induction ds with
  | nil => intro s d hd; exact Or.inl hd
  | cons p ds ih =>
    intro s d hd
    obtain ⟨rel, children⟩ := p
    simp only [procLevel] at hd
    rcases ih _ d hd with h | h
    · rw [procEntries_visited] at h
      simp only [List.mem_append, List.mem_singleton] at h
      rcases h with h | h
      · exact Or.inl h
      · exact Or.inr h
    · exact Or.inr h

lemma bfsLoop_inv (patterns : List Str) (max_files : Nat) (rootPath : Str) :
    ∀ (remaining depth : Nat) (dirs : List (Str × List Entry)) (s : TravState),
      s.bodies = s.file_count → s.file_count ≤ max_files →
      (bfsLoop patterns max_files rootPath remaining depth dirs s).bodies
          = (bfsLoop patterns max_files rootPath remaining depth dirs s).file_count ∧
        (bfsLoop patterns max_files rootPath remaining depth dirs s).file_count ≤ max_files := by
  intro remaining
  induction remaining with
  | zero => intro depth dirs s h1 h2; exact ⟨h1, h2⟩
  | succ n ih =>
    intro depth dirs s h1 h2
    simp only [bfsLoop]
    split
    · exact ⟨h1, h2⟩
    · obtain ⟨g1, g2⟩ := procLevel_inv patterns max_files rootPath depth dirs
        { s with nextDirs := [] } (by simpa using h1) (by simpa using h2)
      exact ih _ _ _ g1 g2

lemma bfsLoop_visited (patterns : List Str) (max_files : Nat) (rootPath : Str) :
    ∀ (remaining depth : Nat) (dirs : List (Str × List Entry)) (s : TravState),
      ∀ d ∈ (bfsLoop patterns max_files rootPath remaining depth dirs s).visited,
        d ∈ s.visited ∨ d < depth + remaining := by
  intro remaining
  induction remaining with
  | zero => intro depth dirs s d hd; exact Or.inl hd
  | succ n ih =>
    intro depth dirs s d hd
    simp only [bfsLoop] at hd
    split at hd
    · exact Or.inl hd
    · rcases ih _ _ _ d hd with h | h
      · rcases procLevel_visited patterns max_files rootPath depth dirs
          { s with nextDirs := [] } d h with h' | h'
        · exact Or.inl h'
        · omega
      · omega

/-- **C5.** The traversal never visits a directory at depth `≥ max_depth`
(relative to the root, which sits at depth 0), and it appends at most
`max_files` file bodies to the output. -/
theorem c5_depth_and_file_count_bounds (patterns : List Str) (rootPath rootName : Str)
    (children : List Entry) (max_depth max_files : Nat) :
    (∀ d ∈ (get_directory_content_run patterns rootPath rootName
        children max_depth max_files).visited, d < max_depth) ∧
    (get_directory_content_run patterns rootPath rootName
        children max_depth max_files).bodies ≤ max_files := by
  obtain ⟨g1, g2⟩ := bfsLoop_inv patterns max_files rootPath max_depth 0 [([], children)]
    ⟨[], 0, [], [], 0⟩ rfl (Nat.zero_le _)
  have hv := bfsLoop_visited patterns max_files rootPath max_depth 0 [([], children)]
    ⟨[], 0, [], [], 0⟩
  constructor
  · intro d hd
    simp only [get_directory_content_run] at hd
    split at hd
    · simp only at hd
      rcases hv d hd with h | h
      · simp at h
      · omega
    · rcases hv d hd with h | h
      · simp at h
      · omega
  · simp only [get_directory_content_run]
    split
    · simpa using g1 ▸ g2
    · exact g1 ▸ g2

lemma procEntries_result_prefix (patterns : List Str) (max_files : Nat) (dirRel : Str) :
    ∀ (es : List Entry) (s : TravState),
      ∃ t, (procEntries patterns max_files dirRel es s).result = s.result ++ t := by
  intro es
  induction es with
  | nil => intro s; exact ⟨[], by simp [procEntries]⟩
  | cons e es ih =>
    intro s
    cases e with
    | file name size content =>
      simp only [procEntries]
      split
      · exact ih s
      · split
        · obtain ⟨t, ht⟩ := ih
            { s with result := s.result ++ [fileHeader name, content],
                     file_count := s.file_count + 1, bodies := s.bodies + 1 }
          exact ⟨[fileHeader name, content] ++ t, by rw [ht]; simp⟩
        · obtain ⟨t, ht⟩ := ih { s with result := s.result ++ [skippedMarker name] }
          exact ⟨[skippedMarker name] ++ t, by rw [ht]; simp⟩
    | dir name children =>
      simp only [procEntries]
      split
      · exact ih s
      · obtain ⟨t, ht⟩ := ih
          { s with nextDirs := s.nextDirs ++ [(childRel dirRel name, children)] }
        exact ⟨t, by rw [ht]⟩

lemma procLevel_result_prefix (patterns : List Str) (max_files : Nat) (rootPath : Str)
    (depth : Nat) :
    ∀ (ds : List (Str × List Entry)) (s : TravState),
      ∃ t, (procLevel patterns max_files rootPath depth ds s).result = s.result ++ t := by
  intro ds
  induction ds with
  | nil => intro s; exact ⟨[], by simp [procLevel]⟩
  | cons p ds ih =>
    intro s
    obtain ⟨rel, children⟩ := p
    simp only [procLevel]
    obtain ⟨t1, ht1⟩ := procEntries_result_prefix patterns max_files rel (sortEntries children)
      { s with result := s.result ++ [dirHeader rootPath rel], visited := s.visited ++ [depth] }
    obtain ⟨t2, ht2⟩ := ih (procEntries patterns max_files rel (sortEntries children)
      { s with result := s.result ++ [dirHeader rootPath rel], visited := s.visited ++ [depth] })
    refine ⟨[dirHeader rootPath rel] ++ t1 ++ t2, ?_⟩
    rw [ht2, ht1]
    simp

lemma bfsLoop_result_prefix (patterns : List Str) (max_files : Nat) (rootPath : Str) :
    ∀ (remaining depth : Nat) (dirs : List (Str × List Entry)) (s : TravState),
      ∃ t, (bfsLoop patterns max_files rootPath remaining depth dirs s).result
        = s.result ++ t := by
  intro remaining
  induction remaining with
  | zero => intro depth dirs s; exact ⟨[], by simp [bfsLoop]⟩
  | succ n ih =>
    intro depth dirs s
    simp only [bfsLoop]
    split
    · exact ⟨[], by simp⟩
    · obtain ⟨t1, ht1⟩ := procLevel_result_prefix patterns max_files rootPath depth dirs
        { s with nextDirs := [] }
      obtain ⟨t2, ht2⟩ := ih (depth + 1)
        (procLevel patterns max_files rootPath depth dirs { s with nextDirs := [] }).nextDirs
        (procLevel patterns max_files rootPath depth dirs { s with nextDirs := [] })
      refine ⟨t1 ++ t2, ?_⟩
      rw [ht2, ht1]
      simp

lemma bfsLoop_succ_unfold (patterns : List Str) (max_files : Nat) (rootPath : Str)
    (n depth : Nat) (dirs : List (Str × List Entry)) (s : TravState)
    (h1 : dirs ≠ []) (h2 : s.file_count < max_files) :
    bfsLoop patterns max_files rootPath (n + 1) depth dirs s
      = bfsLoop patterns max_files rootPath n (depth + 1)
          (procLevel patterns max_files rootPath depth dirs { s with nextDirs := [] }).nextDirs
          (procLevel patterns max_files rootPath depth dirs { s with nextDirs := [] }) := by
  cases dirs with
  | nil => exact absurd rfl h1
  | cons d ds => simp [bfsLoop, h2]

/-- **C10.** Hidden-name and ignore-pattern filtering applies only to
entries discovered during traversal, never to the traversal root: for a
target directory whose own name is hidden or matches a pattern, the
output is the same as for any other root name (the traversal never
consults the root's name), and the root's directory header is still
emitted whenever the depth and file limits allow any traversal at all. -/
theorem c10_root_never_filtered (patterns : List Str) (rootPath rootName rootName' : Str)
    (children : List Entry) (max_depth max_files : Nat)
    (hd : 1 ≤ max_depth) (hf : 1 ≤ max_files)
    (hroot : strStartsWith rootName ['.'] = true ∨
      patterns.any (fun pat => matchesPattern pat rootName) = true) :
    get_directory_content_run patterns rootPath rootName children max_depth max_files
        = get_directory_content_run patterns rootPath rootName' children max_depth max_files
      ∧ dirHeader rootPath [] ∈
        (get_directory_content_run patterns rootPath rootName
          children max_depth max_files).result := by
  refine ⟨rfl, ?_⟩
  have hmem : dirHeader rootPath [] ∈
      (bfsLoop patterns max_files rootPath max_depth 0 [([], children)]
        ⟨[], 0, [], [], 0⟩).result := by
    obtain ⟨n, rfl⟩ : ∃ n, max_depth = n + 1 := ⟨max_depth - 1, by omega⟩
    rw [bfsLoop_succ_unfold patterns max_files rootPath n 0 [([], children)]
      ⟨[], 0, [], [], 0⟩ (by simp) (by simpa using hf)]
    obtain ⟨t2, ht2⟩ := bfsLoop_result_prefix patterns max_files rootPath n 1
      (procLevel patterns max_files rootPath 0 [([], children)] ⟨[], 0, [], [], 0⟩).nextDirs
      (procLevel patterns max_files rootPath 0 [([], children)] ⟨[], 0, [], [], 0⟩)
    rw [ht2]
    refine List.mem_append_left _ ?_
    simp only [procLevel]
    obtain ⟨t1, ht1⟩ := procEntries_result_prefix patterns max_files [] (sortEntries children)
      ⟨[] ++ [dirHeader rootPath []], 0, [], [] ++ [0], 0⟩
    rw [ht1]
    simp
  simp only [get_directory_content_run]
  split
  · exact List.mem_append_left _ hmem
  · exact hmem

/-- Witness for C10: a root directory literally named `.git` with one
ordinary file child. -/
theorem c10_root_never_filtered_witness :
    get_directory_content_run [] "r".data ".git".data
        [Entry.file "a.txt".data 3 "hi".data] 3 50
      = get_directory_content_run [] "r".data "src".data
        [Entry.file "a.txt".data 3 "hi".data] 3 50
    ∧ dirHeader "r".data [] ∈
      (get_directory_content_run [] "r".data ".git".data
        [Entry.file "a.txt".data 3 "hi".data] 3 50).result :=
  c10_root_never_filtered [] "r".data ".git".data "src".data
    [Entry.file "a.txt".data 3 "hi".data] 3 50
    (by decide) (by decide) (Or.inl (by decide))

/-! ## What can appear in the aggregated output (claim C6)

Every string the traversal appends is either a header/marker line
(which starts with `"====="` or `"["`) or the body of a file reached
through a chain of non-ignored entries.  `forestReachable` collects the
latter; `forestLocs` enumerates every entry position the traversal could
discover, with its root-relative path. -/

/-- Header, skipped-file and warning lines all start with `"====="` or
`"["`. -/
def markerLike (c : Str) : Bool :=
  strStartsWith c "=====".data || strStartsWith c ['[']

mutual

/-- The file bodies beneath one non-ignored entry at root-relative path
`rel` that are reachable without passing through an ignored entry. -/
def entryReachable (patterns : List Str) : Str → Entry → List Str
  | _, .file _ _ content => [content]
  | rel, .dir _ children => forestReachable patterns rel children

/-- The file bodies reachable from a list of sibling entries inside the
directory whose root-relative path is `dirRel`. -/
def forestReachable (patterns : List Str) : Str → List Entry → List Str
  | _, [] => []
  | dirRel, e :: es =>
    (if should_ignore patterns (childRel dirRel (entryName e)) e then []
     else entryReachable patterns (childRel dirRel (entryName e)) e)
      ++ forestReachable patterns dirRel es

end

mutual

/-- All positions (root-relative path, entry) inside one entry,
including itself. -/
def entryLocs : Str → Entry → List (Str × Entry)
  | rel, .file name size content => [(rel, .file name size content)]
  | rel, .dir name children => (rel, .dir name children) :: forestLocs rel children

/-- All positions inside a list of sibling entries. -/
def forestLocs : Str → List Entry → List (Str × Entry)
  | _, [] => []
  | dirRel, e :: es =>
    entryLocs (childRel dirRel (entryName e)) e ++ forestLocs dirRel es

end

mutual

/-- All file bodies beneath an entry (ignored or not). -/
def entryContents : Entry → List Str
  | .file _ _ content => [content]
  | .dir _ children => forestContents children

def forestContents : List Entry → List Str
  | [] => []
  | e :: es => entryContents e ++ forestContents es

end

lemma strStartsWith_prefix_append (p t : Str) : strStartsWith (p ++ t) p = true := by
  induction p with
  | nil => simp [strStartsWith]
  | cons c cs ih => simp [strStartsWith, ih]

lemma markerLike_dirHeader (rootPath rel : Str) : markerLike (dirHeader rootPath rel) = true := by
  have h : dirHeader rootPath rel
      = "=====".data ++ (" Directory: ".data ++ displayPath rootPath rel ++ " =====".data) := by
    simp [dirHeader]
  unfold markerLike
  rw [h, strStartsWith_prefix_append, Bool.true_or]

lemma markerLike_fileHeader (name : Str) : markerLike (fileHeader name) = true := by
  have h : fileHeader name = "=====".data ++ (' ' :: name ++ " =====".data) := by
    simp [fileHeader]
  unfold markerLike
  rw [h, strStartsWith_prefix_append, Bool.true_or]

lemma markerLike_skippedMarker (name : Str) : markerLike (skippedMarker name) = true := by
  have h : skippedMarker name
      = ['['] ++ ("Skipped file: ".data ++ name ++ " - max file limit reached]".data) := by
    simp [skippedMarker]
  unfold markerLike
  rw [h, strStartsWith_prefix_append, Bool.or_true]

lemma markerLike_warningMarker (n : Nat) : markerLike (warningMarker n) = true := by
  have h : warningMarker n
      = ['['] ++ ("Warning: Only processed ".data ++ (toString n).data
          ++ " files. Additional files were skipped.]".data) := by
    simp [warningMarker]
  unfold markerLike
  rw [h, strStartsWith_prefix_append, Bool.or_true]

lemma mem_insertEntry {x a : Entry} : ∀ l, x ∈ insertEntry a l ↔ x = a ∨ x ∈ l := by
  intro l
  induction l with
  | nil => simp [insertEntry]
  | cons b bs ih =>
    simp only [insertEntry]
    split
    · simp
    · simp only [List.mem_cons, ih]
      tauto

lemma mem_sortEntries {x : Entry} : ∀ l, x ∈ sortEntries l ↔ x ∈ l := by
  intro l
  induction l with
  | nil => simp [sortEntries]
  | cons e es ih => simp [sortEntries, mem_insertEntry, ih]

lemma mem_forestReachable (patterns : List Str) (dirRel : Str) (c : Str) :
    ∀ l, c ∈ forestReachable patterns dirRel l ↔
      ∃ e ∈ l, should_ignore patterns (childRel dirRel (entryName e)) e = false ∧
        c ∈ entryReachable patterns (childRel dirRel (entryName e)) e := by
  intro l
  induction l with
  | nil => simp [forestReachable]
  | cons e es ih =>
    simp only [forestReachable, List.mem_append, ih, List.mem_cons]
    by_cases hig : should_ignore patterns (childRel dirRel (entryName e)) e = true
    · rw [if_pos hig]
      simp only [List.not_mem_nil, false_or]
      constructor
      · rintro ⟨e', he', hni, hc⟩
        exact ⟨e', Or.inr he', hni, hc⟩
      · rintro ⟨e', he' | he', hni, hc⟩
        · subst he'
          simp [hig] at hni
        · exact ⟨e', he', hni, hc⟩
    · rw [if_neg hig]
      have higf : should_ignore patterns (childRel dirRel (entryName e)) e = false :=
        Bool.eq_false_iff.mpr hig
      constructor
      · rintro (hc | ⟨e', he', hni, hc⟩)
        · exact ⟨e, Or.inl rfl, higf, hc⟩
        · exact ⟨e', Or.inr he', hni, hc⟩
      · rintro ⟨e', he' | he', hni, hc⟩
        · subst he'
          exact Or.inl hc
        · exact Or.inr ⟨e', he', hni, hc⟩

lemma mem_forestReachable_sortEntries (patterns : List Str) (dirRel : Str) (c : Str)
    (l : List Entry) :
    c ∈ forestReachable patterns dirRel (sortEntries l) ↔
      c ∈ forestReachable patterns dirRel l := by
  rw [mem_forestReachable, mem_forestReachable]
  constructor
  · rintro ⟨e, he, h⟩
    exact ⟨e, (mem_sortEntries l).1 he, h⟩
  · rintro ⟨e, he, h⟩
    exact ⟨e, (mem_sortEntries l).2 he, h⟩

lemma procEntries_result_mem (patterns : List Str) (max_files : Nat) (dirRel : Str) :
    ∀ (es : List Entry) (s : TravState) (c : Str),
      c ∈ (procEntries patterns max_files dirRel es s).result →
      c ∈ s.result ∨ markerLike c = true ∨ c ∈ forestReachable patterns dirRel es := by
  intro es
  induction es with
  | nil => intro s c hc; exact Or.inl hc
  | cons e es ih =>
    intro s c hc
    have hforest_tail : ∀ {x : Str}, x ∈ forestReachable patterns dirRel es →
        x ∈ forestReachable patterns dirRel (e :: es) := by
      intro x hx
      simp only [forestReachable]
      exact List.mem_append_right _ hx
    cases e with
    | file name size content =>
      simp only [procEntries, entryName] at hc
      split at hc
      next hig =>
        rcases ih _ _ hc with h | h | h
        · exact Or.inl h
        · exact Or.inr (Or.inl h)
        · exact Or.inr (Or.inr (hforest_tail h))
      next hig =>
        split at hc
        next hlt =>
          rcases ih _ _ hc with h | h | h
          · simp only [List.mem_append, List.mem_cons, List.not_mem_nil, or_false] at h
            rcases h with h | h | h
            · exact Or.inl h
            · exact Or.inr (Or.inl (by rw [h]; exact markerLike_fileHeader name))
            · refine Or.inr (Or.inr ?_)
              simp only [forestReachable, entryName]
              rw [if_neg hig]
              refine List.mem_append_left _ ?_
              simp [entryReachable, h]
          · exact Or.inr (Or.inl h)
          · exact Or.inr (Or.inr (hforest_tail h))
        next hlt =>
          rcases ih _ _ hc with h | h | h
          · simp only [List.mem_append, List.mem_cons, List.not_mem_nil, or_false] at h
            rcases h with h | h
            · exact Or.inl h
            · exact Or.inr (Or.inl (by rw [h]; exact markerLike_skippedMarker name))
          · exact Or.inr (Or.inl h)
          · exact Or.inr (Or.inr (hforest_tail h))
    | dir name children =>
      simp only [procEntries, entryName] at hc
      split at hc
      next hig =>
        rcases ih _ _ hc with h | h | h
        · exact Or.inl h
        · exact Or.inr (Or.inl h)
        · exact Or.inr (Or.inr (hforest_tail h))
      next hig =>
        rcases ih _ _ hc with h | h | h
        · exact Or.inl h
        · exact Or.inr (Or.inl h)
        · exact Or.inr (Or.inr (hforest_tail h))

lemma procEntries_nextDirs_mem (patterns : List Str) (max_files : Nat) (dirRel : Str) :
    ∀ (es : List Entry) (s : TravState) (p : Str × List Entry),
      p ∈ (procEntries patterns max_files dirRel es s).nextDirs →
      p ∈ s.nextDirs ∨
        ∀ c ∈ forestReachable patterns p.1 p.2, c ∈ forestReachable patterns dirRel es := by
  intro es
  induction es with
  | nil => intro s p hp; exact Or.inl hp
  | cons e es ih =>
    intro s p hp
    have htail :
        (∀ c ∈ forestReachable patterns p.1 p.2, c ∈ forestReachable patterns dirRel es) →
        ∀ c ∈ forestReachable patterns p.1 p.2,
          c ∈ forestReachable patterns dirRel (e :: es) := by
      intro h c hcp
      simp only [forestReachable]
      exact List.mem_append_right _ (h c hcp)
    cases e with
    | file name size content =>
      simp only [procEntries, entryName] at hp
      split at hp
      next hig =>
        rcases ih _ _ hp with h | h
        · exact Or.inl h
        · exact Or.inr (htail h)
      next hig =>
        split at hp
        next hlt =>
          rcases ih _ _ hp with h | h
          · exact Or.inl h
          · exact Or.inr (htail h)
        next hlt =>
          rcases ih _ _ hp with h | h
          · exact Or.inl h
          · exact Or.inr (htail h)
    | dir name children =>
      simp only [procEntries, entryName] at hp
      split at hp
      next hig =>
        rcases ih _ _ hp with h | h
        · exact Or.inl h
        · exact Or.inr (htail h)
      next hig =>
        rcases ih _ _ hp with h | h
        · simp only [List.mem_append, List.mem_cons, List.not_mem_nil, or_false] at h
          rcases h with h | h
          · exact Or.inl h
          · refine Or.inr ?_
            intro c hcp
            subst h
            simp only [forestReachable, entryName]
            rw [if_neg hig]
            refine List.mem_append_left _ ?_
            simpa [entryReachable] using hcp
        · exact Or.inr (htail h)

lemma procLevel_result_mem (patterns : List Str) (max_files : Nat) (rootPath : Str)
    (depth : Nat) :
    ∀ (ds : List (Str × List Entry)) (s : TravState) (c : Str),
      c ∈ (procLevel patterns max_files rootPath depth ds s).result →
      c ∈ s.result ∨ markerLike c = true ∨
        ∃ p ∈ ds, c ∈ forestReachable patterns p.1 p.2 := by
  intro ds
  induction ds with
  | nil => intro s c hc; exact Or.inl hc
  | cons p ds ih =>
    intro s c hc
    obtain ⟨rel, children⟩ := p
    simp only [procLevel] at hc
    rcases ih _ _ hc with h | h | ⟨q, hq, hcq⟩
    · rcases procEntries_result_mem patterns max_files rel (sortEntries children) _ _ h
        with h' | h' | h'
      · simp only [List.mem_append, List.mem_cons, List.not_mem_nil, or_false] at h'
        rcases h' with h' | h'
        · exact Or.inl h'
        · exact Or.inr (Or.inl (by rw [h']; exact markerLike_dirHeader rootPath rel))
      · exact Or.inr (Or.inl h')
      · refine Or.inr (Or.inr ⟨(rel, children), List.mem_cons_self _ _, ?_⟩)
        exact (mem_forestReachable_sortEntries patterns rel c children).1 h'
    · exact Or.inr (Or.inl h)
    · exact Or.inr (Or.inr ⟨q, List.mem_cons_of_mem _ hq, hcq⟩)

lemma procLevel_nextDirs_mem (patterns : List Str) (max_files : Nat) (rootPath : Str)
    (depth : Nat) :
    ∀ (ds : List (Str × List Entry)) (s : TravState) (p : Str × List Entry),
      p ∈ (procLevel patterns max_files rootPath depth ds s).nextDirs →
      p ∈ s.nextDirs ∨
        ∃ q ∈ ds, ∀ c ∈ forestReachable patterns p.1 p.2,
          c ∈ forestReachable patterns q.1 q.2 := by
  intro ds
  induction ds with
  | nil => intro s p hp; exact Or.inl hp
  | cons q0 ds ih =>
    intro s p hp
    obtain ⟨rel, children⟩ := q0
    simp only [procLevel] at hp
    rcases ih _ _ hp with h | ⟨q, hq, hsub⟩
    · rcases procEntries_nextDirs_mem patterns max_files rel (sortEntries children) _ _ h
        with h' | h'
      · exact Or.inl h'
      · refine Or.inr ⟨(rel, children), List.mem_cons_self _ _, ?_⟩
        intro c hcp
        exact (mem_forestReachable_sortEntries patterns rel c children).1 (h' c hcp)
    · exact Or.inr ⟨q, List.mem_cons_of_mem _ hq, hsub⟩

lemma bfsLoop_result_mem (patterns : List Str) (max_files : Nat) (rootPath : Str) :
    ∀ (remaining depth : Nat) (dirs : List (Str × List Entry)) (s : TravState) (c : Str),
      c ∈ (bfsLoop patterns max_files rootPath remaining depth dirs s).result →
      c ∈ s.result ∨ markerLike c = true ∨
        ∃ p ∈ dirs, c ∈ forestReachable patterns p.1 p.2 := by
  intro remaining
  induction remaining with
  | zero => intro depth dirs s c hc; exact Or.inl hc
  | succ n ih =>
    intro depth dirs s c hc
    simp only [bfsLoop] at hc
    split at hc
    · exact Or.inl hc
    · rcases ih _ _ _ _ hc with h | h | ⟨p, hp, hcp⟩
      · rcases procLevel_result_mem patterns max_files rootPath depth dirs _ _ h
          with h' | h' | ⟨q, hq, hcq⟩
        · exact Or.inl h'
        · exact Or.inr (Or.inl h')
        · exact Or.inr (Or.inr ⟨q, hq, hcq⟩)
      · exact Or.inr (Or.inl h)
      · rcases procLevel_nextDirs_mem patterns max_files rootPath depth dirs _ _ hp
          with h' | ⟨q, hq, hsub⟩
        · simp at h'
        · exact Or.inr (Or.inr ⟨q, hq, hsub c hcp⟩)

/-- Everything in the aggregated output is a header/marker line or the
body of a file on a fully non-ignored path from the root. -/
lemma gdc_result_mem (patterns : List Str) (rootPath rootName : Str)
    (children : List Entry) (max_depth max_files : Nat) (c : Str)
    (hc : c ∈ (get_directory_content_run patterns rootPath rootName
      children max_depth max_files).result) :
    markerLike c = true ∨ c ∈ forestReachable patterns [] children := by
  have base : ∀ x : Str,
      x ∈ (bfsLoop patterns max_files rootPath max_depth 0 [([], children)]
        ⟨[], 0, [], [], 0⟩).result →
      markerLike x = true ∨ x ∈ forestReachable patterns [] children := by
    intro x hx
    rcases bfsLoop_result_mem patterns max_files rootPath max_depth 0 _ _ _ hx
      with h | h | ⟨p, hp, hcp⟩
    · simp at h
    · exact Or.inl h
    · simp only [List.mem_cons, List.not_mem_nil, or_false] at hp
      subst hp
      exact Or.inr hcp
  simp only [get_directory_content_run] at hc
  split at hc
  · simp only [List.mem_append, List.mem_cons, List.not_mem_nil, or_false] at hc
    rcases hc with hc | hc
    · exact base c hc
    · exact Or.inl (by rw [hc]; exact markerLike_warningMarker _)
  · exact base c hc

/-- **C6 (amended).** If an entry discoverable by the traversal (at its
root-relative path) is hidden or matches an ignore pattern, then none of
the file bodies beneath it appear in the aggregated output — provided
the body string is not also a header/marker-shaped line and is not the
content of some other file on a fully non-ignored path. -/
theorem c6_ignored_content_absent (patterns : List Str) (rootPath rootName : Str)
    (children : List Entry) (max_depth max_files : Nat)
    (rel : Str) (e : Entry) (c : Str)
    (hloc : (rel, e) ∈ forestLocs [] children)
    (hig : should_ignore patterns rel e = true)
    (hc : c ∈ entryContents e)
    (hmk : markerLike c = false)
    (halias : c ∉ forestReachable patterns [] children) :
    c ∉ (get_directory_content_run patterns rootPath rootName
      children max_depth max_files).result := by
  intro hmem
  rcases gdc_result_mem patterns rootPath rootName children max_depth max_files c hmem
    with h | h
  · rw [hmk] at h
    cases h
  · exact halias h

/-- **C6 (counterexample).** The claim as stated — an ignored entry's
content string never appears in the output — fails when an identical
string is contributed by a different, non-ignored file: here the hidden
file `.a` (ignored) and the visible file `b.txt` both contain `dup`, and
`dup` appears in the aggregated output. -/
theorem c6_content_alias_counterexample :
    should_ignore [] ".a".data (Entry.file ".a".data 1 "dup".data) = true ∧
    "dup".data ∈ entryContents (Entry.file ".a".data 1 "dup".data) ∧
    "dup".data ∈ (get_directory_content_run [] "r".data "r".data
      [Entry.file ".a".data 1 "dup".data, Entry.file "b.txt".data 1 "dup".data]
      3 50).result := by
  refine ⟨by decide, by simp [entryContents], by decide⟩

/-- Witness for C6: the hidden file `.a` holds `SECRET`, which appears
nowhere else; `SECRET` is absent from the output. -/
theorem c6_ignored_content_absent_witness :
    "SECRET".data ∉ (get_directory_content_run [] "r".data "r".data
      [Entry.file ".a".data 1 "SECRET".data, Entry.file "b.txt".data 1 "hello".data]
      3 50).result := by
  apply c6_ignored_content_absent [] "r".data "r".data
    [Entry.file ".a".data 1 "SECRET".data, Entry.file "b.txt".data 1 "hello".data]
    3 50 ".a".data (Entry.file ".a".data 1 "SECRET".data) "SECRET".data
  · simp [forestLocs, entryLocs, childRel, entryName]
  · decide
  · simp [entryContents]
  · decide
  · have h1 : should_ignore [] (childRel [] ".a".data)
        (Entry.file ".a".data 1 "SECRET".data) = true := by decide
    have h2 : should_ignore [] (childRel [] "b.txt".data)
        (Entry.file "b.txt".data 1 "hello".data) = false := by decide
    simp [forestReachable, entryReachable, entryName, h1, h2]

/-! ## Query client (`ocode.py` lines 167-348) and `main` (lines 350-415)

HTTP effects are modelled as traces.  A `Req` is one HTTP request the
client issues; an `Out` is one log/print event (timestamps, colors and
elapsed times are abstracted away, and `debug(...)` output is omitted:
`DEBUG_MODE` defaults to `False`).  A server reply of `none` models the
exception path of the corresponding `try` block. -/

inductive Req where
  | version
  | tags
  | genTest
  | genQuery (prompt : Str) (num_ctx : Nat)
deriving DecidableEq

inductive Out where
  | checking
  | serverNotResponding
  | errorConnecting
  | failedModelList
  | modelMissing
  | availableModels (models : List Str)
  | errorCheckingModels
  | modelTestFailed (code : Nat)
  | errorTestingModel
  | fullyOperational
  | promptSize (n : Nat)
  | notReady
  | streamingLog
  | responseBanner
  | chunk (s : Str)
  | streamingCompleted
  | waiting
  | responseCompleted
  | errorStatus (code : Nat)
  | printBody (s : Str)
  | printResponse (s : Str)
  | errorCommunicating
  | processingComplete
  | startup
  | logTarget (t : Str)
  | logQuery (q : Str)
  | targetNotExist
  | readingFile
  | readBytes (n : Nat)
  | readingDirectory
  | processedDirectory (n : Nat)
  | notFileOrDir
  | usingCtx (n : Nat)
deriving DecidableEq

/-- The server's reply to the final `/generate` request: HTTP status,
streamed lines (`none` = a line that fails JSON decoding), `response.text`,
and the optional `response` field of the parsed JSON body. -/
structure GenReply where
  status : Nat
  chunks : List (Option Str)
  body : Str
  responseField : Option Str
deriving DecidableEq

/-- The inference server as seen through its four endpoints; `none`
models a network exception on that call. -/
structure Server where
  versionReply : Option Nat
  tagsReply : Option (Nat × List Str)
  testReply : Option Nat
  genReply : Option GenReply
deriving DecidableEq

/-- Pre-flight check 1 (lines 171-185): `/version` answers 200. -/
def check1 (s : Server) : Bool := s.versionReply == some 200

/-- Pre-flight check 2 (lines 187-209): `/tags` answers 200 and lists
the target model. -/
def check2 (s : Server) : Bool :=
  match s.tagsReply with
  | some (st, models) => st == 200 && models.contains DEFAULT_MODEL
  | none => false

/-- Pre-flight check 3 (lines 211-228): a trivial test generation
answers 200. -/
def check3 (s : Server) : Bool := s.testReply == some 200

def checkPasses (s : Server) : Bool := check1 s && check2 s && check3 s

/-- `ocode.py` `check_ollama_status` (lines 167-231): the three checks in
sequence, stopping at the first failure; returns the overall verdict,
the requests issued, and the log events produced. -/
def check_ollama_status (s : Server) : Bool × List Req × List Out :=
  match s.versionReply with
  | none => (false, [Req.version], [Out.checking, Out.errorConnecting])
  | some st1 =>
    if st1 = 200 then
      match s.tagsReply with
      | none => (false, [Req.version, Req.tags], [Out.checking, Out.errorCheckingModels])
      | some (st2, models) =>
        if st2 = 200 then
          if models.contains DEFAULT_MODEL then
            match s.testReply with
            | none => (false, [Req.version, Req.tags, Req.genTest],
                [Out.checking, Out.errorTestingModel])
            | some st3 =>
              if st3 = 200 then
                (true, [Req.version, Req.tags, Req.genTest],
                 [Out.checking, Out.fullyOperational])
              else
                (false, [Req.version, Req.tags, Req.genTest],
                 [Out.checking, Out.modelTestFailed st3])
          else
            (false, [Req.version, Req.tags],
             [Out.checking, Out.modelMissing, Out.availableModels models])
        else (false, [Req.version, Req.tags], [Out.checking, Out.failedModelList])
    else (false, [Req.version], [Out.checking, Out.serverNotResponding])

/-- `ocode.py` `send_query_to_ollama` (lines 250-348).  The pre-flight
check runs first; on failure the function returns without the generate
request for the user's prompt.  Streaming mode prints the banner before
the request and skips the final completion log on a non-200 status
(the early `return` on line 303); non-streaming mode prints the parsed
`response` field on 200, or the error and raw body otherwise. -/
def send_query_to_ollama (count_tokens : Str → Nat) (prompt : Str) (stream : Bool)
    (dynamic_ctx : Option Nat) (s : Server) : List Req × List Out :=
  let ev0 := [Out.promptSize (count_tokens prompt)]
  let c := check_ollama_status s
  if ! c.1 then
    (c.2.1, ev0 ++ c.2.2 ++ [Out.notReady])
  else
    let ctx := dynamic_ctx.getD MAX_CONTEXT_SIZE
    if stream then
      let pre := ev0 ++ c.2.2 ++ [Out.streamingLog, Out.responseBanner]
      match s.genReply with
      | none =>
        (c.2.1 ++ [Req.genQuery prompt ctx],
         pre ++ [Out.errorCommunicating, Out.processingComplete])
      | some r =>
        if r.status ≠ 200 then
          (c.2.1 ++ [Req.genQuery prompt ctx], pre ++ [Out.errorStatus r.status])
        else
          (c.2.1 ++ [Req.genQuery prompt ctx],
           pre ++ (r.chunks.filterMap id).map Out.chunk
             ++ [Out.streamingCompleted, Out.processingComplete])
    else
      let pre := ev0 ++ c.2.2 ++ [Out.waiting]
      match s.genReply with
      | none =>
        (c.2.1 ++ [Req.genQuery prompt ctx],
         pre ++ [Out.errorCommunicating, Out.processingComplete])
      | some r =>
        if r.status = 200 then
          (c.2.1 ++ [Req.genQuery prompt ctx],
           pre ++ [Out.responseCompleted]
             ++ (match r.responseField with
                 | some txt => [Out.responseBanner, Out.printResponse txt]
                 | none => [])
             ++ [Out.processingComplete])
        else
          (c.2.1 ++ [Req.genQuery prompt ctx],
           pre ++ [Out.errorStatus r.status, Out.printBody r.body, Out.processingComplete])

/-- `os.path.basename`: the characters after the last separator. -/
def basename (p : Str) : Str :=
  p.foldl (fun acc c => if c = '/' then [] else acc ++ [c]) []

/-- The apostrophe character (code point 39). -/
def apos : Char := Char.ofNat 39

def PROMPT_PREFIX : Str :=
  "I".data ++ [apos] ++ ("ll provide code from my project for you to analyze. "
    ++ "Please focus on answering my query effectively.\n\nProject Files:\n").data

def PROMPT_MID : Str := "\n\nQuery: ".data

def PROMPT_SUFFIX : Str :=
  "\n\nPlease provide a detailed answer focusing specifically on my query.".data

/-- `ocode.py` `create_prompt` (lines 233-248): a non-empty content gets
a filename header (`content.splitlines()` is non-empty exactly when the
content is), then the fixed prompt template is wrapped around it. -/
def create_prompt (content query targetPath : Str) : Str :=
  let formatted :=
    if content ≠ [] then
      "===== ".data ++ basename targetPath ++ " =====\n".data ++ content
    else content
  PROMPT_PREFIX ++ formatted ++ PROMPT_MID ++ query ++ PROMPT_SUFFIX

/-- The classification of the target path performed by `main`
(lines 378-395): missing, a file (with its readable content), a
directory (with its children), or something else. -/
inductive Target where
  | missing
  | file (content : Str)
  | directory (children : List Entry)
  | other

/-- `ocode.py` `main` (lines 350-415): argument logging, target
classification (exit 1 and no request when the target is missing or
neither file nor directory), content aggregation, prompt assembly,
context sizing, and the query; returns the exit code with the request
and event traces.  Token counting (`tiktoken`) is external, so it is a
parameter. -/
def main_run (target : Target) (targetPath query : Str) (patterns : List Str)
    (max_depth max_files : Nat) (stream : Bool) (count_tokens : Str → Nat)
    (s : Server) : Nat × List Req × List Out :=
  let ev0 := [Out.startup, Out.logTarget targetPath, Out.logQuery query]
  match target with
  | .missing => (1, [], ev0 ++ [Out.targetNotExist])
  | .file content =>
    let prompt := create_prompt content query targetPath
    let ctx := dynamic_ctx_size (count_tokens prompt)
    let r := send_query_to_ollama count_tokens prompt stream (some ctx) s
    (0, r.1, ev0 ++ [Out.readingFile, Out.readBytes content.length, Out.usingCtx ctx] ++ r.2)
  | .directory children =>
    let content := get_directory_content patterns targetPath (basename targetPath)
      children max_depth max_files
    let prompt := create_prompt content query targetPath
    let ctx := dynamic_ctx_size (count_tokens prompt)
    let r := send_query_to_ollama count_tokens prompt stream (some ctx) s
    (0, r.1, ev0 ++ [Out.readingDirectory, Out.processedDirectory content.length,
      Out.usingCtx ctx] ++ r.2)
  | .other => (1, [], ev0 ++ [Out.notFileOrDir])


lemma check_fst_eq_checkPasses (s : Server) :
    (check_ollama_status s).1 = checkPasses s := by
  rcases s with ⟨v, tg, te, g⟩
  rcases v with _ | st1 <;> rcases tg with _ | ⟨st2, models⟩ <;> rcases te with _ | st3 <;>
      simp only [check_ollama_status, checkPasses, check1, check2, check3] <;>
    first
      | (split_ifs <;> simp_all)
      | simp_all

lemma check_pass_eq (s : Server) (h : checkPasses s = true) :
    check_ollama_status s
      = (true, [Req.version, Req.tags, Req.genTest],
         [Out.checking, Out.fullyOperational]) := by
  rcases s with ⟨v, tg, te, g⟩
  rcases v with _ | st1 <;> rcases tg with _ | ⟨st2, models⟩ <;> rcases te with _ | st3 <;>
      simp only [checkPasses, check1, check2, check3] at h <;>
      simp only [check_ollama_status] <;>
    first
      | (split_ifs <;> simp_all)
      | simp_all

lemma check_reqs_cases (s : Server) :
    (check_ollama_status s).2.1 = [Req.version] ∨
    (check_ollama_status s).2.1 = [Req.version, Req.tags] ∨
    (check_ollama_status s).2.1 = [Req.version, Req.tags, Req.genTest] := by
  rcases s with ⟨v, tg, te, g⟩
  rcases v with _ | st1 <;> rcases tg with _ | ⟨st2, models⟩ <;> rcases te with _ | st3 <;>
      simp only [check_ollama_status] <;>
    first
      | (split_ifs <;> simp)
      | simp

lemma genQuery_notin_check_reqs (s : Server) (p : Str) (c : Nat) :
    Req.genQuery p c ∉ (check_ollama_status s).2.1 := by
  rcases check_reqs_cases s with h | h | h <;> rw [h] <;> simp

lemma check_report_1 (s : Server) (h : check1 s = false) :
    Out.errorConnecting ∈ (check_ollama_status s).2.2 ∨
    Out.serverNotResponding ∈ (check_ollama_status s).2.2 := by
  rcases s with ⟨v, tg, te, g⟩
  rcases v with _ | st1 <;>
      simp only [check1] at h <;> simp only [check_ollama_status] <;>
    first
      | (split_ifs <;> simp_all)
      | simp_all

lemma check_report_2 (s : Server) (h1 : check1 s = true) (h2 : check2 s = false) :
    Out.errorCheckingModels ∈ (check_ollama_status s).2.2 ∨
    Out.failedModelList ∈ (check_ollama_status s).2.2 ∨
    Out.modelMissing ∈ (check_ollama_status s).2.2 := by
  rcases s with ⟨v, tg, te, g⟩
  rcases v with _ | st1 <;> rcases tg with _ | ⟨st2, models⟩ <;>
      simp only [check1] at h1 <;> simp only [check2] at h2 <;>
      simp only [check_ollama_status] <;>
    first
      | (split_ifs <;> simp_all)
      | simp_all

lemma check_report_3 (s : Server) (h1 : check1 s = true) (h2 : check2 s = true)
    (h3 : check3 s = false) :
    Out.errorTestingModel ∈ (check_ollama_status s).2.2 ∨
    ∃ code, Out.modelTestFailed code ∈ (check_ollama_status s).2.2 := by
  rcases s with ⟨v, tg, te, g⟩
  rcases v with _ | st1 <;> rcases tg with _ | ⟨st2, models⟩ <;> rcases te with _ | st3 <;>
      simp only [check1] at h1 <;> simp only [check2] at h2 <;>
      simp only [check3] at h3 <;> simp only [check_ollama_status] <;>
    first
      | (split_ifs <;> simp_all)
      | simp_all

lemma send_query_fail (count_tokens : Str → Nat) (prompt : Str) (stream : Bool)
    (dynamic_ctx : Option Nat) (s : Server) (h : checkPasses s = false) :
    send_query_to_ollama count_tokens prompt stream dynamic_ctx s
      = ((check_ollama_status s).2.1,
         [Out.promptSize (count_tokens prompt)]
           ++ (check_ollama_status s).2.2 ++ [Out.notReady]) := by
  have h1 : (check_ollama_status s).1 = false := by
    rw [check_fst_eq_checkPasses, h]
  simp only [send_query_to_ollama, h1, Bool.not_false, if_true]

lemma send_query_reqs_pass (count_tokens : Str → Nat) (prompt : Str) (stream : Bool)
    (dynamic_ctx : Option Nat) (s : Server) (h : checkPasses s = true) :
    (send_query_to_ollama count_tokens prompt stream dynamic_ctx s).1
      = [Req.version, Req.tags, Req.genTest,
         Req.genQuery prompt (dynamic_ctx.getD MAX_CONTEXT_SIZE)] := by
  simp only [send_query_to_ollama, check_pass_eq s h, Bool.not_true, Bool.false_eq_true,
    if_false]
  cases stream <;> cases hg : s.genReply <;> simp only [if_true, Bool.false_eq_true,
      if_false] <;>
    first
      | rfl
      | (split <;> rfl)

/-- **C7.** When the target path does not exist, `main` returns exit
code 1 and issues no HTTP request; likewise when the target is neither a
file nor a directory. -/
theorem c7_bad_target_exit_1_no_request (targetPath query : Str) (patterns : List Str)
    (max_depth max_files : Nat) (stream : Bool) (count_tokens : Str → Nat) (s : Server) :
    ((main_run Target.missing targetPath query patterns max_depth max_files stream
        count_tokens s).1 = 1 ∧
      (main_run Target.missing targetPath query patterns max_depth max_files stream
        count_tokens s).2.1 = []) ∧
    ((main_run Target.other targetPath query patterns max_depth max_files stream
        count_tokens s).1 = 1 ∧
      (main_run Target.other targetPath query patterns max_depth max_files stream
        count_tokens s).2.1 = []) :=
  ⟨⟨rfl, rfl⟩, rfl, rfl⟩

/-- **C8.** The generate request for the user's prompt is issued exactly
when all three pre-flight checks pass; when some check fails, the
function reports not-ready plus a message identifying the first failing
check, and no generate request for the prompt is issued. -/
theorem c8_preflight_gates_generate (count_tokens : Str → Nat) (prompt : Str)
    (stream : Bool) (dynamic_ctx : Option Nat) (s : Server) :
    ((∃ ctx, Req.genQuery prompt ctx ∈
        (send_query_to_ollama count_tokens prompt stream dynamic_ctx s).1)
      ↔ checkPasses s = true) ∧
    (checkPasses s = false →
      Out.notReady ∈ (send_query_to_ollama count_tokens prompt stream dynamic_ctx s).2 ∧
      (check1 s = false →
        Out.errorConnecting ∈
            (send_query_to_ollama count_tokens prompt stream dynamic_ctx s).2 ∨
          Out.serverNotResponding ∈
            (send_query_to_ollama count_tokens prompt stream dynamic_ctx s).2) ∧
      (check1 s = true → check2 s = false →
        Out.errorCheckingModels ∈
            (send_query_to_ollama count_tokens prompt stream dynamic_ctx s).2 ∨
          Out.failedModelList ∈
            (send_query_to_ollama count_tokens prompt stream dynamic_ctx s).2 ∨
          Out.modelMissing ∈
            (send_query_to_ollama count_tokens prompt stream dynamic_ctx s).2) ∧
      (check1 s = true → check2 s = true → check3 s = false →
        Out.errorTestingModel ∈
            (send_query_to_ollama count_tokens prompt stream dynamic_ctx s).2 ∨
          ∃ code, Out.modelTestFailed code ∈
            (send_query_to_ollama count_tokens prompt stream dynamic_ctx s).2)) := by
  constructor
  · constructor
    · rintro ⟨ctx, hmem⟩
      by_contra hfail
      have hf : checkPasses s = false := by
        cases hcp : checkPasses s
        · rfl
        · exact absurd hcp hfail
      rw [send_query_fail count_tokens prompt stream dynamic_ctx s hf] at hmem
      exact genQuery_notin_check_reqs s prompt ctx hmem
    · intro hpass
      refine ⟨dynamic_ctx.getD MAX_CONTEXT_SIZE, ?_⟩
      rw [send_query_reqs_pass count_tokens prompt stream dynamic_ctx s hpass]
      simp
  · intro hfail
    rw [send_query_fail count_tokens prompt stream dynamic_ctx s hfail]
    refine ⟨by simp, ?_, ?_, ?_⟩
    · intro h1
      rcases check_report_1 s h1 with h | h
      · exact Or.inl (by simp [h])
      · exact Or.inr (by simp [h])
    · intro h1 h2
      rcases check_report_2 s h1 h2 with h | h | h
      · exact Or.inl (by simp [h])
      · exact Or.inr (Or.inl (by simp [h]))
      · exact Or.inr (Or.inr (by simp [h]))
    · intro h1 h2 h3
      rcases check_report_3 s h1 h2 h3 with h | ⟨code, h⟩
      · exact Or.inl (by simp [h])
      · exact Or.inr ⟨code, by simp [h]⟩

/-- Witness for C8: with an unreachable server (all calls fail), the
not-ready message is reported. -/
theorem c8_preflight_gates_generate_witness :
    Out.notReady ∈ (send_query_to_ollama (fun _ => 0) "q".data true none
      ⟨none, none, none, none⟩).2 :=
  ((c8_preflight_gates_generate (fun _ => 0) "q".data true none
    ⟨none, none, none, none⟩).2 (by decide)).1

/-- **C9.** For a non-streaming query answered with HTTP 500 (after the
pre-flight checks passed), the error is reported with the status code
and no response text is printed: no `=== Ollama Response ===` banner and
no parsed `response` field ever reach the output (the raw `response.text`
body is printed, per lines 342-343). -/
theorem c9_non_streaming_500 (count_tokens : Str → Nat) (prompt : Str)
    (dynamic_ctx : Option Nat) (s : Server) (r : GenReply)
    (hpass : checkPasses s = true) (hg : s.genReply = some r) (hst : r.status = 500) :
    Out.errorStatus 500 ∈
        (send_query_to_ollama count_tokens prompt false dynamic_ctx s).2 ∧
      (∀ txt, Out.printResponse txt ∉
        (send_query_to_ollama count_tokens prompt false dynamic_ctx s).2) ∧
      Out.responseBanner ∉
        (send_query_to_ollama count_tokens prompt false dynamic_ctx s).2 := by
  have htr : (send_query_to_ollama count_tokens prompt false dynamic_ctx s).2
      = [Out.promptSize (count_tokens prompt), Out.checking, Out.fullyOperational,
         Out.waiting, Out.errorStatus 500, Out.printBody r.body,
         Out.processingComplete] := by
    simp only [send_query_to_ollama, check_pass_eq s hpass, Bool.not_true,
      Bool.false_eq_true, if_false, hg]
    rw [if_neg (by rw [hst]; norm_num), hst]
    rfl
  rw [htr]
  refine ⟨by simp, ?_, by simp⟩
  intro txt
  simp

/-- Witness for C9 at a concrete healthy server whose generate endpoint
answers 500. -/
theorem c9_non_streaming_500_witness :
    Out.errorStatus 500 ∈
        (send_query_to_ollama (fun _ => 0) "q".data false none
          ⟨some 200, some (200, [DEFAULT_MODEL]), some 200,
           some ⟨500, [], "ERR".data, none⟩⟩).2 ∧
      (∀ txt, Out.printResponse txt ∉
        (send_query_to_ollama (fun _ => 0) "q".data false none
          ⟨some 200, some (200, [DEFAULT_MODEL]), some 200,
           some ⟨500, [], "ERR".data, none⟩⟩).2) ∧
      Out.responseBanner ∉
        (send_query_to_ollama (fun _ => 0) "q".data false none
          ⟨some 200, some (200, [DEFAULT_MODEL]), some 200,
           some ⟨500, [], "ERR".data, none⟩⟩).2 :=
  c9_non_streaming_500 (fun _ => 0) "q".data none
    ⟨some 200, some (200, [DEFAULT_MODEL]), some 200, some ⟨500, [], "ERR".data, none⟩⟩
    ⟨500, [], "ERR".data, none⟩ (by decide) rfl rfl
